import Mathlib

/-!
# TimeNote — verification of the note model in `src/App.tsx`

A shallow embedding of the single React component that makes up the
TimeNote application.  The component state (`notes`, the three draft
fields and `editingNoteId`) becomes an explicit `AppState` record, the
event handlers become pure state transformers, and the JavaScript
string / number primitives the code relies on (`String.prototype.split`,
`Number`, `padStart`, lexicographic string comparison, stable
`Array.prototype.sort`) are modelled on `List Char` / `Nat`.
`Option` stands for JavaScript's `NaN` / thrown-exception outcomes.
-/

namespace TimeNote

/-- The `Note` interface of `App.tsx`: `id` (a `Date.now()` timestamp,
modelled as `Nat`), the two `HH:MM` time strings and the free text. -/
structure Note where
  id : Nat
  startTime : String
  endTime : String
  text : String
deriving DecidableEq

/-- Model of JavaScript `str.split(sep)` for a one-character separator,
acting on the character list of the string.  `"".split(":") = [""]`,
and a separator at either end yields an empty field, as in JS. -/
def jsSplit (sep : Char) : List Char → List (List Char)
  | [] => [[]]
  | c :: rest =>
    if c = sep then [] :: jsSplit sep rest
    else
      match jsSplit sep rest with
      | [] => [[c]]
      | g :: gs => (c :: g) :: gs

/-- Value of a decimal digit character, `none` for a non-digit. -/
def digitVal (c : Char) : Option Nat :=
  if '0' ≤ c ∧ c ≤ '9' then some (c.toNat - Char.toNat '0') else none

/-- Accumulator loop for `jsNumberNat`. -/
def parseDigitsAux : List Char → Nat → Option Nat
  | [], acc => some acc
  | c :: rest, acc =>
    match digitVal c with
    | some d => parseDigitsAux rest (10 * acc + d)
    | none => none

/-- Model of JavaScript `Number(str)` on the strings this program feeds
it: a string of decimal digits parses to its value, the empty string
parses to `0` (as in JS), and any non-digit yields `none` (JS `NaN`). -/
def jsNumberNat (l : List Char) : Option Nat :=
  parseDigitsAux l 0

/-- `timeToMinutes` of `App.tsx`:
`const [hours, minutes] = timeStr.split(":").map(Number);
return hours * 60 + minutes;` — `none` models a `NaN` result. -/
def timeToMinutes (timeStr : String) : Option Nat :=
  match (jsSplit ':' timeStr.data).map jsNumberNat with
  | some h :: some m :: _ => some (h * 60 + m)
  | _ => none

/-- Model of JavaScript `str.padStart(2, "0")`. -/
def padStart2 (l : List Char) : List Char :=
  List.replicate (2 - l.length) '0' ++ l

/-- `minutesToTime` of `App.tsx`:
`h = Math.floor(minutes / 60); m = minutes % 60;` then the template
literal pads both to two digits and joins them with `":"`.
`Nat.repr` models `Number.prototype.toString` on naturals. -/
def minutesToTime (minutes : Nat) : String :=
  ⟨padStart2 (Nat.repr (minutes / 60)).data ++
    ':' :: padStart2 (Nat.repr (minutes % 60)).data⟩

/-- Lexicographic strict comparison of character lists, by code point:
the computational content of JavaScript's `<` / `>=` on strings (which
compare code units; on these strings the two coincide). -/
def charListLt : List Char → List Char → Bool
  | _, [] => false
  | [], _ :: _ => true
  | a :: as, b :: bs =>
    if a < b then true
    else if b < a then false
    else charListLt as bs

/-- Model of JavaScript `a <= b`-style string comparison (`!(b < a)`),
used for the sort comparator. -/
def jsLe (a b : String) : Bool :=
  !charListLt b.data a.data

/-- Model of JavaScript `a >= b` on strings: `!(a < b)`. -/
def jsGe (a b : String) : Bool :=
  !charListLt a.data b.data

/-- Model of JavaScript `String.prototype.trim`: drop leading and
trailing whitespace. -/
def jsTrim (s : String) : String :=
  ⟨((s.data.dropWhile Char.isWhitespace).reverse.dropWhile
      Char.isWhitespace).reverse⟩

/-- The component state of `App`: the note list and the Form Draft
(`startTime`, `endTime`, `text`, `editingNoteId`). -/
structure AppState where
  notes : List Note
  startTime : String
  endTime : String
  text : String
  editingNoteId : Option Nat
deriving DecidableEq

/-- The `useState` initial values: empty list, empty draft, no edit. -/
def initialState : AppState :=
  ⟨[], "", "", "", none⟩

/-- The comparator `(a, b) => a.startTime.localeCompare(b.startTime)`:
on the zero-padded ASCII `HH:MM` strings this program produces,
`localeCompare` agrees with lexicographic code-unit order. -/
def noteLe (a b : Note) : Bool :=
  jsLe a.startTime b.startTime

/-- The comparator as a decidable relation, for the sort. -/
def noteLeP (a b : Note) : Prop :=
  noteLe a b = true

instance : DecidableRel noteLeP :=
  fun a b => Bool.decEq (noteLe a b) true

/-- JavaScript `Array.prototype.sort` is a stable sort; for a total
preorder comparator every stable sort computes the same list, so
`List.insertionSort` (stable) embeds it exactly. -/
def sortNotes (l : List Note) : List Note :=
  l.insertionSort noteLeP

/-- The function mapped over the notes in the update branch:
`note.id === editingNoteId ? { ...note, startTime, endTime, text } : note`. -/
def updNote (st et tx : String) (eid : Nat) (note : Note) : Note :=
  if note.id = eid then
    { note with startTime := st, endTime := et, text := tx }
  else note

/-- The `newNote` object literal of the create branch: fresh id from
`Date.now()` (passed in as `now`), draft fields copied verbatim. -/
def newNote (now : Nat) (st et tx : String) : Note :=
  ⟨now, st, et, tx⟩

/-- The two `alert` messages of `handleSubmit`, as the spec's error
taxonomy names them. -/
inductive SubmitError
  | MissingField
  | InvalidRange
deriving DecidableEq

/-- Result of a submit: the next component state, whether `setNotes`
was invoked (a fresh collection object is installed and the save
effect fires), and which `alert` fired, if any. -/
structure SubmitResult where
  state : AppState
  storeWritten : Bool
  error : Option SubmitError
deriving DecidableEq

/-- `handleSubmit` of `App.tsx`.  Guard 1: `!startTime || !endTime ||
!text.trim()` (empty-string falsiness, `String.prototype.trim`).
Guard 2: `startTime >= endTime` in JS string order.  Then either the
update branch (map + sort) or the create branch (append + sort), and
in both cases the draft is reset and `editingNoteId` cleared. -/
def handleSubmit (now : Nat) (s : AppState) : SubmitResult :=
  if s.startTime = "" ∨ s.endTime = "" ∨ jsTrim s.text = "" then
    ⟨s, false, some SubmitError.MissingField⟩
  else if jsGe s.startTime s.endTime then
    ⟨s, false, some SubmitError.InvalidRange⟩
  else
    match s.editingNoteId with
    | some eid =>
        ⟨⟨sortNotes (s.notes.map (updNote s.startTime s.endTime s.text eid)),
          "", "", "", none⟩, true, none⟩
    | none =>
        ⟨⟨sortNotes (s.notes ++ [newNote now s.startTime s.endTime s.text]),
          "", "", "", none⟩, true, none⟩

/-- `handleEdit` of `App.tsx`: copies the note's fields and id into the
draft; the note list is untouched. -/
def handleEdit (note : Note) (s : AppState) : AppState :=
  { s with
    editingNoteId := some note.id
    startTime := note.startTime
    endTime := note.endTime
    text := note.text }

/-- `handleDelete` of `App.tsx`:
`setNotes(prev => prev.filter(note => note.id !== id))`. -/
def handleDelete (id : Nat) (s : AppState) : AppState :=
  { s with notes := s.notes.filter (fun note => note.id != id) }

/-- `handleCancelEdit` of `App.tsx`: clears the draft and the editing
target without touching the notes. -/
def handleCancelEdit (s : AppState) : AppState :=
  { s with editingNoteId := none, startTime := "", endTime := "", text := "" }

/-- The confirmed Delete All button: `setNotes([])`. -/
def clearAll (s : AppState) : AppState :=
  { s with notes := [] }

/-- The duration shown per note:
`(timeToMinutes(note.endTime) - timeToMinutes(note.startTime)) / 60`,
taken with exact rational semantics (the display-only
`toFixed(2)` / `parseFloat` rounding is presentation). -/
def durationHours (note : Note) : Option ℚ :=
  match timeToMinutes note.endTime, timeToMinutes note.startTime with
  | some e, some st => some (((e : ℚ) - (st : ℚ)) / 60)
  | _, _ => none

/-- The save effect: `localStorage.setItem(key, JSON.stringify(notes))`
overwrites the stored blob with the serialized collection.  The
serializer itself (`JSON.stringify`) is a platform function, passed in
abstractly. -/
def saveStore (serialize : List Note → String) (notes : List Note) :
    Option String :=
  some (serialize notes)

/-- The load effect: `getItem` returns `none` (JS `null`) or the blob;
the blob is parsed only when truthy (non-empty), and a parse failure
(`JSON.parse` throwing, the deserializer's `none`) is caught, leaving
the initial empty list. -/
def loadNotes (deserialize : String → Option (List Note))
    (store : Option String) : List Note :=
  match store with
  | none => []
  | some s => if s = "" then [] else ((deserialize s).getD [])

/-- A user-level event the component can receive: typing in one of the
three inputs, submitting the form at a given `Date.now()` value,
starting an edit, deleting a note, cancelling an edit, Delete All. -/
inductive Event
  | setStart (v : String)
  | setEnd (v : String)
  | setText (v : String)
  | submit (now : Nat)
  | edit (note : Note)
  | delete (id : Nat)
  | cancel
  | clear
deriving DecidableEq

/-- One step of the component under an event. -/
def step (s : AppState) : Event → AppState
  | Event.setStart v => { s with startTime := v }
  | Event.setEnd v => { s with endTime := v }
  | Event.setText v => { s with text := v }
  | Event.submit now => (handleSubmit now s).state
  | Event.edit n => handleEdit n s
  | Event.delete i => handleDelete i s
  | Event.cancel => handleCancelEdit s
  | Event.clear => clearAll s

/-- Run a sequence of events from the initial (empty) state. -/
def run (evs : List Event) : AppState :=
  evs.foldl step initialState

/-- The `Date.now()` values consumed by the submits of an event list. -/
def submitNows : List Event → List Nat
  | [] => []
  | Event.submit n :: rest => n :: submitNows rest
  | _ :: rest => submitNows rest

/-! ## The JS string primitives agree with the mathematical string order -/

lemma charListLt_iff : ∀ (as bs : List Char), charListLt as bs = true ↔ as < bs
  | [], [] => by
    constructor
    · intro h
      simp [charListLt] at h
    · intro h
      cases h
  | [], b :: bs => by
    constructor
    · intro _
      exact List.Lex.nil
    · intro _
      rfl
  | a :: as, [] => by
    constructor
    · intro h
      simp [charListLt] at h
    · intro h
      cases h
  | a :: as, b :: bs => by
    by_cases hab : a < b
    · constructor
      · intro _
        exact List.Lex.rel hab
      · intro _
        simp [charListLt, hab]
    · by_cases hba : b < a
      · constructor
        · intro h
          simp only [charListLt, if_neg hab, if_pos hba] at h
          exact absurd h Bool.false_ne_true
        · intro h
          cases h with
          | cons h' => exact absurd hba (lt_irrefl a)
          | rel h' => exact absurd h' hab
      · have heq : a = b := le_antisymm (not_lt.mp hba) (not_lt.mp hab)
        subst heq
        simp only [charListLt, if_neg hab, if_neg hba]
        rw [charListLt_iff as bs]
        constructor
        · intro h
          exact List.Lex.cons h
        · intro h
          cases h with
          | cons h' => exact h'
          | rel h' => exact absurd h' hab

lemma jsLe_iff (a b : String) : jsLe a b = true ↔ a ≤ b := by
  rw [jsLe, Bool.not_eq_true']
  rw [← Bool.not_eq_true (charListLt b.data a.data)]
  rw [charListLt_iff]
  show ¬ (b.toList < a.toList) ↔ a ≤ b
  rw [← String.lt_iff_toList_lt]
  exact not_lt

lemma jsGe_iff (a b : String) : jsGe a b = true ↔ b ≤ a := by
  rw [jsGe, Bool.not_eq_true']
  rw [← Bool.not_eq_true (charListLt a.data b.data)]
  rw [charListLt_iff]
  show ¬ (a.toList < b.toList) ↔ b ≤ a
  rw [← String.lt_iff_toList_lt]
  exact not_lt

lemma jsGe_eq_false_iff (a b : String) : jsGe a b = false ↔ a < b := by
  rw [← Bool.not_eq_true, jsGe_iff]
  exact not_le

/-- A kernel-checkable entry into the mathematical string order. -/
lemma string_lt_of_charListLt {a b : String}
    (h : charListLt a.data b.data = true) : a < b :=
  String.lt_iff_toList_lt.mpr ((charListLt_iff a.data b.data).mp h)

/-! ## Helper lemmas about the sort -/

instance : IsTotal Note noteLeP :=
  ⟨fun a b => by
    simp only [noteLeP, noteLe, jsLe_iff]
    exact le_total _ _⟩

instance : IsTrans Note noteLeP :=
  ⟨fun a b c hab hbc => by
    simp only [noteLeP, noteLe, jsLe_iff] at *
    exact le_trans hab hbc⟩

lemma sorted_sortNotes (l : List Note) :
    List.Pairwise (fun a b => noteLe a b = true) (sortNotes l) :=
  List.sorted_insertionSort noteLeP l

lemma sortNotes_perm (l : List Note) : List.Perm (sortNotes l) l :=
  List.perm_insertionSort noteLeP l

lemma sortNotes_of_sorted {l : List Note}
    (h : List.Pairwise (fun a b => noteLe a b = true) l) : sortNotes l = l :=
  List.Sorted.insertionSort_eq h

lemma filter_key_sortNotes (l : List Note) (t : String) :
    (sortNotes l).filter (fun n => n.startTime == t) =
      l.filter (fun n => n.startTime == t) := by
  have hmem : ∀ n ∈ l.filter (fun n => n.startTime == t), n.startTime = t := by
    intro n hn
    simpa using (List.mem_filter.mp hn).2
  have hpw : (l.filter (fun n => n.startTime == t)).Pairwise noteLeP := by
    apply List.pairwise_of_forall_mem_list
    intro a ha b hb
    simp [noteLeP, noteLe, jsLe_iff, hmem a ha, hmem b hb]
  have hsub : List.Sublist (l.filter (fun n => n.startTime == t)) (sortNotes l) :=
    List.sublist_insertionSort hpw (List.filter_sublist l)
  have hself : (l.filter (fun n => n.startTime == t)).filter
      (fun n => n.startTime == t) = l.filter (fun n => n.startTime == t) := by
    apply List.filter_eq_self.mpr
    intro a ha
    exact (List.mem_filter.mp ha).2
  have hsub2 : List.Sublist (l.filter (fun n => n.startTime == t))
      ((sortNotes l).filter (fun n => n.startTime == t)) := by
    have := hsub.filter (fun n => n.startTime == t)
    rwa [hself] at this
  have hperm : List.Perm ((sortNotes l).filter (fun n => n.startTime == t))
      (l.filter (fun n => n.startTime == t)) :=
    (sortNotes_perm l).filter _
  exact (hsub2.eq_of_length hperm.length_eq.symm).symm

/-! ## Helper lemmas about `handleSubmit` -/

/-- On a valid draft, `handleSubmit` runs the branch selected by
`editingNoteId`, clears the draft and reports no error. -/
lemma handleSubmit_valid (now : Nat) (s : AppState)
    (h1 : s.startTime ≠ "") (h2 : s.endTime ≠ "") (h3 : jsTrim s.text ≠ "")
    (h4 : s.startTime < s.endTime) :
    handleSubmit now s =
      ⟨⟨sortNotes (match s.editingNoteId with
          | some eid => s.notes.map (updNote s.startTime s.endTime s.text eid)
          | none => s.notes ++ [newNote now s.startTime s.endTime s.text]),
        "", "", "", none⟩, true, none⟩ := by
  unfold handleSubmit
  rw [if_neg (by tauto),
    if_neg (by simp [(jsGe_eq_false_iff s.startTime s.endTime).mpr h4])]
  cases s.editingNoteId <;> rfl

/-- A submit that wrote the store had a valid draft. -/
lemma storeWritten_valid (now : Nat) (s : AppState)
    (hw : (handleSubmit now s).storeWritten = true) :
    s.startTime ≠ "" ∧ s.endTime ≠ "" ∧ jsTrim s.text ≠ "" ∧
      s.startTime < s.endTime := by
  by_cases hm : s.startTime = "" ∨ s.endTime = "" ∨ jsTrim s.text = ""
  · rw [handleSubmit, if_pos hm] at hw
    cases hw
  · by_cases hr : jsGe s.startTime s.endTime = true
    · rw [handleSubmit, if_neg hm, if_pos hr] at hw
      cases hw
    · push_neg at hm
      exact ⟨hm.1, hm.2.1, hm.2.2,
        (jsGe_eq_false_iff s.startTime s.endTime).mp (Bool.not_eq_true _ ▸ hr)⟩

/-- A rejected submit leaves the whole component state unchanged. -/
lemma handleSubmit_rejected (now : Nat) (s : AppState)
    (hw : (handleSubmit now s).storeWritten = false) :
    (handleSubmit now s).state = s := by
  by_cases hm : s.startTime = "" ∨ s.endTime = "" ∨ jsTrim s.text = ""
  · rw [handleSubmit, if_pos hm]
  · by_cases hr : jsGe s.startTime s.endTime = true
    · rw [handleSubmit, if_neg hm, if_pos hr]
    · push_neg at hm
      rw [handleSubmit_valid now s hm.1 hm.2.1 hm.2.2
        ((jsGe_eq_false_iff s.startTime s.endTime).mp (Bool.not_eq_true _ ▸ hr))] at hw
      cases hw

/-! ## Helper lemmas about ids and events -/

lemma updNote_id (st et tx : String) (eid : Nat) (n : Note) :
    (updNote st et tx eid n).id = n.id := by
  by_cases h : n.id = eid <;> simp [updNote, h]

lemma map_id_updNote (st et tx : String) (eid : Nat) (l : List Note) :
    (l.map (updNote st et tx eid)).map Note.id = l.map Note.id := by
  rw [List.map_map]
  apply List.map_congr_left
  intro n _
  exact updNote_id st et tx eid n

/-- Any submit either keeps the multiset of ids or appends `now` to it. -/
lemma submit_ids (now : Nat) (s : AppState) :
    List.Perm ((handleSubmit now s).state.notes.map Note.id) (s.notes.map Note.id)
    ∨ List.Perm ((handleSubmit now s).state.notes.map Note.id)
        (s.notes.map Note.id ++ [now]) := by
  cases hb : (handleSubmit now s).storeWritten with
  | false =>
    left
    rw [handleSubmit_rejected now s hb]
  | true =>
    obtain ⟨h1, h2, h3, h4⟩ := storeWritten_valid now s hb
    rw [handleSubmit_valid now s h1 h2 h3 h4]
    cases heid : s.editingNoteId with
    | some eid =>
      left
      simp only [heid]
      exact ((sortNotes_perm _).map Note.id).trans
        (List.Perm.of_eq (map_id_updNote _ _ _ _ _))
    | none =>
      right
      simp only [heid]
      refine ((sortNotes_perm _).map Note.id).trans ?_
      rw [List.map_append]
      exact List.Perm.rfl

/-- Invariant: starting from a state whose note ids are distinct and
disjoint from the pending submit timestamps, distinct timestamps keep
the ids distinct. -/
lemma run_ids_nodup : ∀ (evs : List Event) (s : AppState),
    (s.notes.map Note.id).Nodup →
    (∀ i ∈ s.notes.map Note.id, i ∉ submitNows evs) →
    (submitNows evs).Nodup →
    ((evs.foldl step s).notes.map Note.id).Nodup := by
  intro evs
  induction evs with
  | nil =>
    intro s hnd _ _
    exact hnd
  | cons ev rest ih =>
    intro s hnd hdisj hnows
    rw [List.foldl_cons]
    cases ev with
    | setStart v => exact ih _ hnd hdisj hnows
    | setEnd v => exact ih _ hnd hdisj hnows
    | setText v => exact ih _ hnd hdisj hnows
    | edit n => exact ih _ hnd hdisj hnows
    | cancel => exact ih _ hnd hdisj hnows
    | clear =>
      apply ih
      · exact List.nodup_nil
      · intro i hi
        simp [step, clearAll] at hi
      · exact hnows
    | delete i =>
      have hsub : List.Sublist ((handleDelete i s).notes.map Note.id)
          (s.notes.map Note.id) :=
        (List.filter_sublist s.notes).map Note.id
      exact ih _ (hsub.nodup hnd) (fun j hj => hdisj j (hsub.subset hj)) hnows
    | submit now =>
      have hnowrest : (submitNows rest).Nodup := hnows.of_cons
      have hnotin : now ∉ submitNows rest := (List.nodup_cons.mp hnows).1
      rcases submit_ids now s with hp | hp
      · apply ih _ (hp.nodup_iff.mpr hnd)
        · intro j hj hc
          exact hdisj j (hp.subset hj) (List.mem_cons_of_mem now hc)
        · exact hnowrest
      · have hnowids : now ∉ s.notes.map Note.id := by
          intro hc
          exact hdisj now hc (List.mem_cons_self now (submitNows rest))
        have hnd2 : (s.notes.map Note.id ++ [now]).Nodup := by
          rw [List.nodup_append]
          refine ⟨hnd, List.nodup_singleton now, ?_⟩
          intro j hj hc
          rw [List.mem_singleton] at hc
          subst hc
          exact hnowids hj
        apply ih _ (hp.nodup_iff.mpr hnd2)
        · intro j hj hc
          rcases List.mem_append.mp (hp.subset hj) with hj' | hj'
          · exact hdisj j hj' (List.mem_cons_of_mem now hc)
          · rw [List.mem_singleton] at hj'
            subst hj'
            exact hnotin hc
        · exact hnowrest

/-! ## Helper lemmas for the time round-trip -/

lemma pad_repr_fact : ∀ k : Nat, k < 100 →
    jsNumberNat (padStart2 (Nat.repr k).data) = some k
    ∧ ':' ∉ padStart2 (Nat.repr k).data := by decide

lemma jsSplit_append (sep : Char) (A B : List Char) (hA : sep ∉ A) :
    jsSplit sep (A ++ sep :: B) = A :: jsSplit sep B := by
  induction A with
  | nil => simp [jsSplit]
  | cons c cs ih =>
    have hc : c ≠ sep := fun h => hA (h ▸ List.mem_cons_self c cs)
    simp only [List.cons_append, jsSplit, if_neg hc]
    rw [List.append_eq, ih (fun h => hA (List.mem_cons_of_mem c h))]

lemma jsSplit_no_sep (sep : Char) (B : List Char) (hB : sep ∉ B) :
    jsSplit sep B = [B] := by
  induction B with
  | nil => rfl
  | cons c cs ih =>
    have hc : c ≠ sep := fun h => hB (h ▸ List.mem_cons_self c cs)
    simp only [jsSplit, if_neg hc]
    rw [ih (fun h => hB (List.mem_cons_of_mem c h))]

/-! ## Claim theorems -/

/-- C1: a submit writes the Note Store (invokes `setNotes`) if and only
if `startTime` and `endTime` are non-empty, `text` is non-empty after
trimming, and `startTime < endTime` in string order; on rejection the
whole state (Note Store and all Draft fields) is unchanged, with
`MissingField` for an empty field and `InvalidRange` for
`startTime >= endTime`. -/
theorem submit_mutates_iff_valid (now : Nat) (s : AppState) :
    ((handleSubmit now s).storeWritten = true ↔
      (s.startTime ≠ "" ∧ s.endTime ≠ "" ∧ jsTrim s.text ≠ "" ∧
        s.startTime < s.endTime))
    ∧ ((handleSubmit now s).storeWritten = false → (handleSubmit now s).state = s)
    ∧ ((s.startTime = "" ∨ s.endTime = "" ∨ jsTrim s.text = "") →
        (handleSubmit now s).error = some SubmitError.MissingField)
    ∧ (s.startTime ≠ "" → s.endTime ≠ "" → jsTrim s.text ≠ "" →
        ¬ s.startTime < s.endTime →
        (handleSubmit now s).error = some SubmitError.InvalidRange) := by
  refine ⟨⟨fun hw => storeWritten_valid now s hw, ?_⟩, ?_, ?_, ?_⟩
  · rintro ⟨h1, h2, h3, h4⟩
    rw [handleSubmit_valid now s h1 h2 h3 h4]
  · intro hw
    exact handleSubmit_rejected now s hw
  · intro hm
    rw [handleSubmit, if_pos hm]
  · intro h1 h2 h3 h4
    rw [handleSubmit, if_neg (by tauto),
      if_pos ((jsGe_iff s.startTime s.endTime).mpr (not_lt.mp h4))]

/-- C1 witness: the iff and the frame conditions at a concrete state. -/
theorem submit_mutates_iff_valid_witness :
    ((handleSubmit 5 initialState).storeWritten = true ↔
      (initialState.startTime ≠ "" ∧ initialState.endTime ≠ "" ∧
        jsTrim initialState.text ≠ "" ∧
        initialState.startTime < initialState.endTime))
    ∧ ((handleSubmit 5 initialState).storeWritten = false →
        (handleSubmit 5 initialState).state = initialState)
    ∧ ((initialState.startTime = "" ∨ initialState.endTime = "" ∨
        jsTrim initialState.text = "") →
        (handleSubmit 5 initialState).error = some SubmitError.MissingField)
    ∧ (initialState.startTime ≠ "" → initialState.endTime ≠ "" →
        jsTrim initialState.text ≠ "" →
        ¬ initialState.startTime < initialState.endTime →
        (handleSubmit 5 initialState).error = some SubmitError.InvalidRange) :=
  submit_mutates_iff_valid 5 initialState

/-- C2: after any submit that wrote the store (add or update branch),
the note collection is non-decreasing by `startTime` string order, and
ties keep the order they had in the list handed to the sort (the prior
collection with the update applied, resp. with the new note appended). -/
theorem submit_keeps_sorted (now : Nat) (s : AppState)
    (hw : (handleSubmit now s).storeWritten = true) :
    List.Pairwise (fun a b => noteLe a b = true) (handleSubmit now s).state.notes
    ∧ ∀ t : String,
        ((handleSubmit now s).state.notes.filter (fun n => n.startTime == t)) =
          ((match s.editingNoteId with
            | some eid => s.notes.map (updNote s.startTime s.endTime s.text eid)
            | none => s.notes ++ [newNote now s.startTime s.endTime s.text]).filter
            (fun n => n.startTime == t)) := by
  obtain ⟨h1, h2, h3, h4⟩ := storeWritten_valid now s hw
  rw [handleSubmit_valid now s h1 h2 h3 h4]
  exact ⟨sorted_sortNotes _, fun t => filter_key_sortNotes _ t⟩

/-- C2 witness: sortedness after a concrete add of `09:00`–`10:00`. -/
theorem submit_keeps_sorted_witness :
    List.Pairwise (fun a b => noteLe a b = true)
      (handleSubmit 5 ⟨[⟨1, "11:00", "12:00", "later"⟩],
        "09:00", "10:00", "x", none⟩).state.notes :=
  (submit_keeps_sorted 5 ⟨[⟨1, "11:00", "12:00", "later"⟩],
    "09:00", "10:00", "x", none⟩ (by decide)).1

/-- C3: on a valid draft with no edit target, the create branch grows
the collection by exactly one, and the inserted note carries `now` as
id and the three draft fields verbatim (`text` untrimmed). -/
theorem add_inserts_one (now : Nat) (s : AppState)
    (hnone : s.editingNoteId = none)
    (h1 : s.startTime ≠ "") (h2 : s.endTime ≠ "") (h3 : jsTrim s.text ≠ "")
    (h4 : s.startTime < s.endTime) :
    (handleSubmit now s).state.notes.length = s.notes.length + 1
    ∧ (⟨now, s.startTime, s.endTime, s.text⟩ : Note) ∈
        (handleSubmit now s).state.notes := by
  rw [handleSubmit_valid now s h1 h2 h3 h4]
  simp only [hnone]
  constructor
  · show (sortNotes (s.notes ++ [newNote now s.startTime s.endTime s.text])).length
        = s.notes.length + 1
    rw [sortNotes, List.length_insertionSort, List.length_append]
    rfl
  · show (⟨now, s.startTime, s.endTime, s.text⟩ : Note) ∈
        sortNotes (s.notes ++ [newNote now s.startTime s.endTime s.text])
    rw [sortNotes]
    simp [List.mem_insertionSort, newNote]

/-- C3 witness: a concrete valid add. -/
theorem add_inserts_one_witness :
    (handleSubmit 5 ⟨[], "09:00", "10:00", " note ", none⟩).state.notes.length
        = ([] : List Note).length + 1
    ∧ (⟨5, "09:00", "10:00", " note "⟩ : Note) ∈
        (handleSubmit 5 ⟨[], "09:00", "10:00", " note ", none⟩).state.notes :=
  add_inserts_one 5 ⟨[], "09:00", "10:00", " note ", none⟩ rfl
    (by decide) (by decide) (by decide) (string_lt_of_charListLt (by decide))

/-- C4: the displayed duration is
`(minutes(endTime) - minutes(startTime)) / 60` hours, exactly; in
particular `09:00`–`10:30` yields `1.5`. -/
theorem duration_formula :
    (∀ (n : Note) (a b : Nat),
        timeToMinutes n.startTime = some a → timeToMinutes n.endTime = some b →
        durationHours n = some (((b : ℚ) - (a : ℚ)) / 60))
    ∧ durationHours ⟨0, "09:00", "10:30", "m"⟩ = some (3 / 2) := by
  constructor
  · intro n a b ha hb
    rw [durationHours, ha, hb]
  · have h1 : timeToMinutes "09:00" = some 540 := by decide
    have h2 : timeToMinutes "10:30" = some 630 := by decide
    simp only [durationHours, h1, h2]
    norm_num

/-- C4 witness: the general formula applied to a concrete note. -/
theorem duration_formula_witness :
    durationHours ⟨1, "08:00", "09:30", "w"⟩ =
      some (((570 : ℚ) - (480 : ℚ)) / 60) :=
  duration_formula.1 ⟨1, "08:00", "09:30", "w"⟩ 480 570 (by decide) (by decide)

/-- C7: after `handleDelete id` no note with that id remains; deleting
an absent id leaves the state exactly unchanged; delete is idempotent. -/
theorem delete_removes_id (s : AppState) (i : Nat) :
    (∀ n ∈ (handleDelete i s).notes, n.id ≠ i)
    ∧ ((∀ n ∈ s.notes, n.id ≠ i) → handleDelete i s = s)
    ∧ handleDelete i (handleDelete i s) = handleDelete i s := by
  refine ⟨?_, ?_, ?_⟩
  · intro n hn
    simpa using (List.mem_filter.mp hn).2
  · intro h
    have hf : s.notes.filter (fun note => note.id != i) = s.notes := by
      apply List.filter_eq_self.mpr
      intro a ha
      simpa using h a ha
    rw [handleDelete, hf]
  · simp [handleDelete, List.filter_filter]

/-- C7 witness: deleting id 2 from a concrete two-note collection. -/
theorem delete_removes_id_witness :
    (∀ n ∈ (handleDelete 2 ⟨[⟨1, "08:00", "09:00", "a"⟩,
        ⟨2, "09:00", "10:00", "b"⟩], "", "", "", none⟩).notes, n.id ≠ 2)
    ∧ ((∀ n ∈ ([⟨1, "08:00", "09:00", "a"⟩,
        ⟨2, "09:00", "10:00", "b"⟩] : List Note), n.id ≠ 2) →
        handleDelete 2 ⟨[⟨1, "08:00", "09:00", "a"⟩,
          ⟨2, "09:00", "10:00", "b"⟩], "", "", "", none⟩ =
          ⟨[⟨1, "08:00", "09:00", "a"⟩,
            ⟨2, "09:00", "10:00", "b"⟩], "", "", "", none⟩)
    ∧ handleDelete 2 (handleDelete 2 ⟨[⟨1, "08:00", "09:00", "a"⟩,
        ⟨2, "09:00", "10:00", "b"⟩], "", "", "", none⟩) =
        handleDelete 2 ⟨[⟨1, "08:00", "09:00", "a"⟩,
          ⟨2, "09:00", "10:00", "b"⟩], "", "", "", none⟩ :=
  delete_removes_id ⟨[⟨1, "08:00", "09:00", "a"⟩,
    ⟨2, "09:00", "10:00", "b"⟩], "", "", "", none⟩ 2

/-- C9: `handleDelete` touches only the note list: the three draft
fields and `editingNoteId` are unchanged, and in particular deleting
the note currently being edited leaves `editingNoteId` pointing at the
now-absent id. -/
theorem delete_preserves_draft (s : AppState) (i : Nat) :
    ((handleDelete i s).startTime = s.startTime
      ∧ (handleDelete i s).endTime = s.endTime
      ∧ (handleDelete i s).text = s.text
      ∧ (handleDelete i s).editingNoteId = s.editingNoteId)
    ∧ (s.editingNoteId = some i →
        (handleDelete i s).editingNoteId = some i
        ∧ ∀ n ∈ (handleDelete i s).notes, n.id ≠ i) := by
  refine ⟨⟨rfl, rfl, rfl, rfl⟩, ?_⟩
  intro h
  refine ⟨h, ?_⟩
  intro n hn
  simpa using (List.mem_filter.mp hn).2

/-- C9 witness: deleting the note that is currently being edited. -/
theorem delete_preserves_draft_witness :
    ((handleDelete 1 ⟨[⟨1, "08:00", "09:00", "a"⟩], "08:00", "09:00", "a",
        some 1⟩).startTime = "08:00"
      ∧ (handleDelete 1 ⟨[⟨1, "08:00", "09:00", "a"⟩], "08:00", "09:00", "a",
        some 1⟩).endTime = "09:00"
      ∧ (handleDelete 1 ⟨[⟨1, "08:00", "09:00", "a"⟩], "08:00", "09:00", "a",
        some 1⟩).text = "a"
      ∧ (handleDelete 1 ⟨[⟨1, "08:00", "09:00", "a"⟩], "08:00", "09:00", "a",
        some 1⟩).editingNoteId = some 1)
    ∧ ((handleDelete 1 ⟨[⟨1, "08:00", "09:00", "a"⟩], "08:00", "09:00", "a",
        some 1⟩).editingNoteId = some 1
      ∧ ∀ n ∈ (handleDelete 1 ⟨[⟨1, "08:00", "09:00", "a"⟩], "08:00", "09:00",
        "a", some 1⟩).notes, n.id ≠ 1) :=
  ⟨(delete_preserves_draft ⟨[⟨1, "08:00", "09:00", "a"⟩], "08:00", "09:00", "a",
      some 1⟩ 1).1,
    (delete_preserves_draft ⟨[⟨1, "08:00", "09:00", "a"⟩], "08:00", "09:00", "a",
      some 1⟩ 1).2 rfl⟩

/-- C5 counterexample: ids are `Date.now()` timestamps, so two valid
adds performed with the same clock reading (same millisecond) yield
two distinct notes sharing the id — reachable from the empty state. -/
theorem reachable_duplicate_id :
    ¬ (((run [Event.setStart "09:00", Event.setEnd "10:00", Event.setText "a",
        Event.submit 7, Event.setStart "09:00", Event.setEnd "10:00",
        Event.setText "b", Event.submit 7]).notes.map Note.id).Nodup) := by
  decide

/-- C5 (amended): in every reachable state the note ids are pairwise
distinct, provided the `Date.now()` readings of the submits in the
event sequence are pairwise distinct. -/
theorem ids_nodup_of_distinct_nows (evs : List Event)
    (h : (submitNows evs).Nodup) :
    ((run evs).notes.map Note.id).Nodup := by
  apply run_ids_nodup evs initialState
  · exact List.nodup_nil
  · intro i hi
    simp [initialState] at hi
  · exact h

/-- C5 witness: two adds at distinct timestamps give distinct ids. -/
theorem ids_nodup_of_distinct_nows_witness :
    (submitNows [Event.setStart "09:00", Event.setEnd "10:00",
      Event.setText "a", Event.submit 7, Event.setStart "09:00",
      Event.setEnd "10:00", Event.setText "b", Event.submit 8]).Nodup
    ∧ ((run [Event.setStart "09:00", Event.setEnd "10:00", Event.setText "a",
        Event.submit 7, Event.setStart "09:00", Event.setEnd "10:00",
        Event.setText "b", Event.submit 8]).notes.map Note.id).Nodup :=
  ⟨by decide, ids_nodup_of_distinct_nows _ (by decide)⟩

/-- C6 counterexample: submitting a valid draft whose `editingNoteId`
matches no note leaves the collection as it was — but no "not found"
condition reaches the caller: no alert fires (`error = none`), the
submit completes like a success and even clears the draft. -/
theorem update_absent_id_no_signal :
    (handleSubmit 99 ⟨[⟨1, "08:00", "09:00", "x"⟩], "09:00", "10:00", "y",
        some 2⟩).error = none
    ∧ (handleSubmit 99 ⟨[⟨1, "08:00", "09:00", "x"⟩], "09:00", "10:00", "y",
        some 2⟩).state.notes = [⟨1, "08:00", "09:00", "x"⟩]
    ∧ (handleSubmit 99 ⟨[⟨1, "08:00", "09:00", "x"⟩], "09:00", "10:00", "y",
        some 2⟩).state.editingNoteId = none
    ∧ (handleSubmit 99 ⟨[⟨1, "08:00", "09:00", "x"⟩], "09:00", "10:00", "y",
        some 2⟩).storeWritten = true := by
  decide

/-- C6 (amended): on a valid draft with edit target `eid`, the update
branch replaces the fields of every note whose id is `eid` (keeping
the id) and leaves all other notes unchanged, up to re-sorting; when
no note matches, the collection is re-sorted only (so unchanged
whenever it was already sorted) and no error is signalled. -/
theorem update_replaces_matching (now : Nat) (s : AppState) (eid : Nat)
    (heid : s.editingNoteId = some eid)
    (h1 : s.startTime ≠ "") (h2 : s.endTime ≠ "") (h3 : jsTrim s.text ≠ "")
    (h4 : s.startTime < s.endTime) :
    List.Perm (handleSubmit now s).state.notes
      (s.notes.map (fun n => if n.id = eid then
        { n with startTime := s.startTime, endTime := s.endTime, text := s.text }
        else n))
    ∧ ((∀ n ∈ s.notes, n.id ≠ eid) →
        (handleSubmit now s).state.notes = sortNotes s.notes
        ∧ (List.Pairwise (fun a b => noteLe a b = true) s.notes →
            (handleSubmit now s).state.notes = s.notes)
        ∧ (handleSubmit now s).error = none) := by
  rw [handleSubmit_valid now s h1 h2 h3 h4]
  simp only [heid]
  constructor
  · exact sortNotes_perm _
  · intro habs
    have hmap : s.notes.map (updNote s.startTime s.endTime s.text eid)
        = s.notes := by
      have hid : ∀ n ∈ s.notes,
          updNote s.startTime s.endTime s.text eid n = id n := by
        intro n hn
        simp [updNote, habs n hn]
      rw [List.map_congr_left hid, List.map_id]
    rw [hmap]
    exact ⟨rfl, fun hsorted => sortNotes_of_sorted hsorted, trivial⟩

/-- C6 witness: updating towards an absent id at a concrete state. -/
theorem update_replaces_matching_witness :
    List.Perm (handleSubmit 99 ⟨[⟨1, "08:00", "09:00", "x"⟩], "09:00", "10:00",
        "y", some 2⟩).state.notes
      (([⟨1, "08:00", "09:00", "x"⟩] : List Note).map (fun n => if n.id = 2 then
        { n with startTime := "09:00", endTime := "10:00", text := "y" }
        else n))
    ∧ ((∀ n ∈ ([⟨1, "08:00", "09:00", "x"⟩] : List Note), n.id ≠ 2) →
        (handleSubmit 99 ⟨[⟨1, "08:00", "09:00", "x"⟩], "09:00", "10:00", "y",
          some 2⟩).state.notes = sortNotes [⟨1, "08:00", "09:00", "x"⟩]
        ∧ (List.Pairwise (fun a b => noteLe a b = true)
            ([⟨1, "08:00", "09:00", "x"⟩] : List Note) →
            (handleSubmit 99 ⟨[⟨1, "08:00", "09:00", "x"⟩], "09:00", "10:00",
              "y", some 2⟩).state.notes = [⟨1, "08:00", "09:00", "x"⟩])
        ∧ (handleSubmit 99 ⟨[⟨1, "08:00", "09:00", "x"⟩], "09:00", "10:00", "y",
          some 2⟩).error = none) :=
  update_replaces_matching 99 ⟨[⟨1, "08:00", "09:00", "x"⟩], "09:00", "10:00",
    "y", some 2⟩ 2 rfl (by decide) (by decide) (by decide)
    (string_lt_of_charListLt (by decide))

/-- C8: for any serializer/deserializer pair that round-trips the
collection (and does not serialize to the empty string, which
`getItem`'s truthiness check would skip), loading right after saving
returns the saved collection exactly. -/
theorem save_load_roundtrip (serialize : List Note → String)
    (deserialize : String → Option (List Note)) (notes : List Note)
    (hconf : deserialize (serialize notes) = some notes)
    (hne : serialize notes ≠ "") :
    loadNotes deserialize (saveStore serialize notes) = notes := by
  rw [saveStore, loadNotes, if_neg hne, hconf]
  rfl

/-- C8 witness: a concrete conforming pair on a one-note collection. -/
theorem save_load_roundtrip_witness :
    loadNotes (fun _ => some [⟨1, "08:00", "09:00", "x"⟩])
      (saveStore (fun _ => "S") [⟨1, "08:00", "09:00", "x"⟩]) =
      [⟨1, "08:00", "09:00", "x"⟩] :=
  save_load_roundtrip (fun _ => "S") (fun _ => some [⟨1, "08:00", "09:00", "x"⟩])
    [⟨1, "08:00", "09:00", "x"⟩] rfl (by decide)

/-- C10: formatting any minute count `0 ≤ m ≤ 1439` as zero-padded
`HH:MM` and parsing it back is the identity. -/
theorem minutes_time_roundtrip (m : Nat) (h : m < 1440) :
    timeToMinutes (minutesToTime m) = some m := by
  obtain ⟨hA1, hA2⟩ := pad_repr_fact (m / 60) (by omega)
  obtain ⟨hB1, hB2⟩ := pad_repr_fact (m % 60) (by omega)
  rw [timeToMinutes, minutesToTime]
  rw [show (String.mk (padStart2 (Nat.repr (m / 60)).data ++
      ':' :: padStart2 (Nat.repr (m % 60)).data)).data =
      padStart2 (Nat.repr (m / 60)).data ++
      ':' :: padStart2 (Nat.repr (m % 60)).data from rfl]
  rw [jsSplit_append ':' _ _ hA2, jsSplit_no_sep ':' _ hB2]
  simp only [List.map_cons, List.map_nil]
  rw [hA1, hB1]
  show some (m / 60 * 60 + m % 60) = some m
  have hdm : m / 60 * 60 + m % 60 = m := by omega
  rw [hdm]

/-- C10 witness: `570` minutes is `09:30` and parses back to `570`. -/
theorem minutes_time_roundtrip_witness :
    timeToMinutes (minutesToTime 570) = some 570 :=
  minutes_time_roundtrip 570 (by norm_num)

end TimeNote
